import Mathlib

/-!
Verification development for the audio delivery-metrics pipeline of
`backend/audioAnalysis.js` (the analysis half of `src/utils/audioStorage.ts`'s
bundle).  The JavaScript is shallowly embedded: byte buffers become
`List Byte` (`Byte := Fin 256`), PCM samples become exact rationals, and the
few genuinely transcendental computations (`Math.sqrt`, `Math.log10`,
`Math.cos`, `Math.sin`) are modelled over `ℝ`.  JavaScript numeric semantics
that matter at the corner cases are reproduced explicitly and documented at
each definition:

* `new Float32Array(x)` truncates a non-integer length via `ToIndex`
  (ES2017 7.1.17), so `extractSamplesFromBuffer` never throws; an odd
  trailing byte is silently dropped.
* `new Array(x)` with a non-integer `x` throws a `RangeError`
  (`ToUint32(x) ≠ x`), so `performFFT` throws exactly when
  `N = min(1024, samples.length)` is odd; that error is caught inside
  `calculateRealClarity`, which then returns its stage default `3.8`.
* `0/0` is `NaN`, and every `NaN < c` comparison is `false`, so a bucket
  cascade on a `NaN` value falls through to its final `return`.
-/

namespace AudioAnalysis

/-- One byte of the input buffer (a Node `Buffer` element). -/
abbrev Byte := Fin 256

/-- A speech/silence segment `{start, end}` (seconds).  The source field
`end` is a Lean keyword, so it is called `stop` here. -/
structure TimeSegment where
  start : ℚ
  stop : ℚ
deriving DecidableEq, Repr

/-- `buffer.readInt16LE(off)`: the signed 16-bit little-endian integer formed
by bytes `off` and `off+1`. -/
def readInt16LE (buffer : List Byte) (off : ℕ) : ℤ :=
  let v : ℕ := (buffer.getD off 0).val + 256 * (buffer.getD (off + 1) 0).val
  if 32768 ≤ v then (v : ℤ) - 65536 else (v : ℤ)

/-- `extractSamplesFromBuffer` (audioAnalysis.js:203-214): allocates
`new Float32Array(buffer.length / 2)` — for odd lengths `ToIndex` truncates
to `⌊length/2⌋` without throwing — and fills slot `i` with
`buffer.readInt16LE(i * 2) / 32768.0`. -/
def extractSamplesFromBuffer (buffer : List Byte) : List ℚ :=
  (List.range (buffer.length / 2)).map fun i => (readInt16LE buffer (i * 2) : ℚ) / 32768

/-- `calculateWindowEnergy` (audioAnalysis.js:466-472): mean of squared
amplitudes.  Only ever called on nonempty windows, so the JS `0/0 = NaN`
case is not exercised (Lean's `0/0 = 0` convention is never observable). -/
def calculateWindowEnergy (window : List ℚ) : ℚ :=
  (window.map fun x => x * x).sum / (window.length : ℚ)

/-- The window start offsets visited by `for (let i = 0; i < len; i += w)`.
For `w = 0` the JS loop would not terminate; that case is unreachable
(the fixed sample rate 44100 gives window sizes 882 and 441), and the model
returns the empty list there. -/
def windowStarts (w len : ℕ) : List ℕ :=
  if w = 0 then [] else (List.range ((len + w - 1) / w)).map (· * w)

/-- The shared two-state (Quiet/Active) scanning loop of
`detectSpeechSegments` (audioAnalysis.js:436-461) and `detectSilentSegments`
(audioAnalysis.js:477-504).  State: `inRun` (the JS `inSpeech`/`inSilence`
flag), `runStart` (the JS `segmentStart`/`silenceStart`), and the list of
closed segments.  `isOn` is the run-entry test (`energy > 0.001` for speech,
`energy < threshold` for silence); leaving a run happens exactly when
`isOn` fails, mirroring the source's complementary conditions.  `minDur` is
`none` for speech (unconditional push) and `some minDuration` for silence
(the `duration >= minDuration` filter). -/
def segLoop (samples : List ℚ) (w : ℕ) (rate : ℕ) (isOn : ℚ → Bool)
    (minDur : Option ℚ) :
    List ℕ → Bool → ℚ → List TimeSegment → List TimeSegment
  | [], _, _, acc => acc
  | i :: rest, inRun, runStart, acc =>
    let e := calculateWindowEnergy ((samples.drop i).take w)
    if isOn e && !inRun then
      segLoop samples w rate isOn minDur rest true ((i : ℚ) / (rate : ℚ)) acc
    else if !(isOn e) && inRun then
      segLoop samples w rate isOn minDur rest false runStart
        (match minDur with
         | none => acc ++ [⟨runStart, (i : ℚ) / (rate : ℚ)⟩]
         | some d =>
           if d ≤ (i : ℚ) / (rate : ℚ) - runStart then
             acc ++ [⟨runStart, (i : ℚ) / (rate : ℚ)⟩]
           else acc)
    else
      segLoop samples w rate isOn minDur rest inRun runStart acc

/-- `detectSpeechSegments` (audioAnalysis.js:436-461): 20 ms windows
(`Math.floor(sampleRate * 0.02)`, which equals `sampleRate * 2 / 100` for the
integer rates used), energy threshold `0.001`, no minimum duration. -/
def detectSpeechSegments (samples : List ℚ) (sampleRate : ℕ) : List TimeSegment :=
  let windowSize := sampleRate * 2 / 100
  segLoop samples windowSize sampleRate (fun e => 1 / 1000 < e) none
    (windowStarts windowSize samples.length) false 0 []

/-- `detectSilentSegments` (audioAnalysis.js:477-504): 10 ms windows
(`Math.floor(sampleRate * 0.01) = sampleRate / 100`), run entered while
`energy < threshold`, and a closed run is kept only when its duration is at
least `minDuration`. -/
def detectSilentSegments (samples : List ℚ) (sampleRate : ℕ)
    (threshold minDuration : ℚ) : List TimeSegment :=
  let windowSize := sampleRate / 100
  segLoop samples windowSize sampleRate (fun e => e < threshold) (some minDuration)
    (windowStarts windowSize samples.length) false 0 []

/-- `calculateRealPace` (audioAnalysis.js:216-239).  `speechRate` is the
segment count divided by the total speech time (0 when there is no speech
time), mapped through the bucket cascade. -/
def calculateRealPace (samples : List ℚ) (sampleRate : ℕ) : ℚ :=
  let speechSegments := detectSpeechSegments samples sampleRate
  let totalSpeechTime := (speechSegments.map fun s => s.stop - s.start).sum
  let speechRate := if 0 < totalSpeechTime
    then (speechSegments.length : ℚ) / totalSpeechTime else 0
  if speechRate < 3 / 2 then 2
  else if speechRate < 5 / 2 then 3
  else if speechRate < 4 then 5
  else if speechRate < 5 then 4
  else 3

/-- `calculateRealVolume` (audioAnalysis.js:246-270).  For an empty sample
array the JS computes `rms = sqrt(0/0) = NaN`, every `dbLevel < c`
comparison is `false`, and the cascade falls through to the final
`return 3`; that is made explicit by the leading guard.  Otherwise
`dbLevel = 20 * log10(rms + 1e-10)` is modelled over `ℝ`. -/
noncomputable def calculateRealVolume (samples : List ℚ) : ℚ :=
  if samples.length = 0 then 3
  else
    let sumSquares : ℚ := (samples.map fun x => x * x).sum
    let rms : ℝ := Real.sqrt ((sumSquares : ℝ) / (samples.length : ℝ))
    let dbLevel : ℝ := 20 * Real.logb 10 (rms + 1 / 10 ^ 10)
    if dbLevel < -40 then 2
    else if dbLevel < -25 then 3
    else if dbLevel < -10 then 5
    else if dbLevel < -5 then 4
    else 3

/-- The magnitude list built by `performFFT` (audioAnalysis.js:509-534) when
the allocation `new Array(N / 2)` succeeds, i.e. when `N` is even: for each
`k < N/2`, `sqrt(realSum² + imagSum²)` of the direct DFT accumulation with
`angle = -2πkn/N`, `imag` identically 0, and `real[i]` read from the samples
(the `i < samples.length` test is the source's zero-padding branch, dead
because `N ≤ samples.length`). -/
noncomputable def fftMagnitudes (samples : List ℚ) : List ℝ :=
  let N := min 1024 samples.length
  let re : ℕ → ℝ := fun n => if n < samples.length then ((samples.getD n 0 : ℚ) : ℝ) else 0
  let im : ℕ → ℝ := fun _ => 0
  (List.range (N / 2)).map fun (k : ℕ) =>
    let realSum : ℝ := ∑ n in Finset.range N,
      (re n * Real.cos (-(2 * Real.pi * (k : ℝ) * (n : ℝ)) / (N : ℝ)) -
        im n * Real.sin (-(2 * Real.pi * (k : ℝ) * (n : ℝ)) / (N : ℝ)))
    let imagSum : ℝ := ∑ n in Finset.range N,
      (re n * Real.sin (-(2 * Real.pi * (k : ℝ) * (n : ℝ)) / (N : ℝ)) +
        im n * Real.cos (-(2 * Real.pi * (k : ℝ) * (n : ℝ)) / (N : ℝ)))
    Real.sqrt (realSum ^ 2 + imagSum ^ 2)

/-- `performFFT` (audioAnalysis.js:509-534).  `new Array(N / 2)` throws a
`RangeError` when `N / 2` is not an integer (`ToUint32(N/2) ≠ N/2`), i.e.
exactly when `N = min(1024, samples.length)` is odd; the `.error` value
models that exception. -/
noncomputable def performFFT (samples : List ℚ) : Except Unit (List ℝ) :=
  if min 1024 samples.length % 2 = 1 then Except.error ()
  else Except.ok (fftMagnitudes samples)

/-- The summation loop of `getFrequencyRange`:
`for (let i = binMin; i <= binMax && i < spectrum.length; i++)`. -/
noncomputable def sumBins (spectrum : List ℝ) (binMax : ℤ) (i : ℕ) : ℝ :=
  if h : (i : ℤ) ≤ binMax ∧ i < spectrum.length then
    spectrum.getD i 0 + sumBins spectrum binMax (i + 1)
  else 0
termination_by spectrum.length - i
decreasing_by omega

/-- `getFrequencyRange` (audioAnalysis.js:539-550).  `binSize` is
`sampleRate / (2 * spectrum.length)`; for the empty spectrum JS gets
`Infinity` and both bin indices floor to 0, matching Lean's `q / 0 = 0`.
All call sites pass `freqMin ≥ 0`, so the loop's start index `binMin` is
never negative and `Int.toNat` is faithful. -/
noncomputable def getFrequencyRange (spectrum : List ℝ) (freqMin freqMax : ℚ)
    (sampleRate : ℕ) : ℝ :=
  let binSize : ℚ := (sampleRate : ℚ) / (2 * (spectrum.length : ℚ))
  let binMin : ℤ := ⌊freqMin / binSize⌋
  let binMax : ℤ := ⌊freqMax / binSize⌋
  sumBins spectrum binMax binMin.toNat

/-- `calculateRealClarity` (audioAnalysis.js:277-303).  The stage's
`try/catch` converts the `performFFT` exception (odd `N`) into the stage
default `3.8`; otherwise the speech/noise band split with the `1e-10`
epsilon feeds the bucket cascade. -/
noncomputable def calculateRealClarity (samples : List ℚ) (sampleRate : ℕ) : ℚ :=
  match performFFT samples with
  | Except.error _ => 19 / 5
  | Except.ok frequencySpectrum =>
    let speechFreqRange := getFrequencyRange frequencySpectrum 300 3400 sampleRate
    let noiseFreqRange := getFrequencyRange frequencySpectrum 0 300 sampleRate +
      getFrequencyRange frequencySpectrum 3400 8000 sampleRate
    let clarityFrac : ℝ :=
      speechFreqRange / (noiseFreqRange + speechFreqRange + 1 / 10 ^ 10)
    if 4 / 5 < clarityFrac then 5
    else if 3 / 5 < clarityFrac then 4
    else if 2 / 5 < clarityFrac then 3
    else if 1 / 5 < clarityFrac then 2
    else 1

/-- `calculateRealPauses` (audioAnalysis.js:310-335): silence detection with
threshold `0.01` and minimum duration `0.2`, then the pause bucket cascade
on `totalSilenceTime / duration`.  For `duration = 0` (empty buffer) JS gets
`silenceRatio = 0/0 = NaN`, all comparisons fail and the cascade returns its
final `2`; Lean's `0 / 0 = 0` takes the first bucket, which is also `2`, so
the observable value agrees. -/
def calculateRealPauses (samples : List ℚ) (sampleRate : ℕ) (duration : ℚ) : ℚ :=
  let silentSegments := detectSilentSegments samples sampleRate (1 / 100) (1 / 5)
  let totalSilenceTime := (silentSegments.map fun s => s.stop - s.start).sum
  let silenceFrac := totalSilenceTime / duration
  if silenceFrac < 1 / 20 then 2
  else if silenceFrac < 3 / 20 then 5
  else if silenceFrac < 1 / 4 then 4
  else if silenceFrac < 7 / 20 then 3
  else 2

/-- `estimatePitch` (audioAnalysis.js:555-581): autocorrelation over lags
`minPeriod = ⌊sampleRate/800⌋ … maxPeriod = ⌊sampleRate/80⌋`; a lag is
retained only when its normalized correlation strictly exceeds the best so
far (initially 0), so only strictly positive correlations ever win. -/
def estimatePitch (window : List ℚ) (sampleRate : ℕ) : ℚ :=
  let minPeriod := sampleRate / 800
  let maxPeriod := sampleRate / 80
  let best := (List.range' minPeriod (maxPeriod + 1 - minPeriod)).foldl
    (fun best period =>
      let count := window.length - period
      if count = 0 then best
      else
        let correlation :=
          ((List.range count).map fun j =>
            window.getD j 0 * window.getD (j + period) 0).sum / (count : ℚ)
        if best.2 < correlation then (period, correlation) else best)
    ((0, 0) : ℕ × ℚ)
  if 0 < best.1 then (sampleRate : ℚ) / (best.1 : ℚ) else 0

/-- The pitch track collected by `calculateRealTonalVariation`
(audioAnalysis.js:347-354): one `estimatePitch` call per full 20 ms window
with `i < samples.length - windowSize`, keeping only values `> 0`. -/
def pitchValues (samples : List ℚ) (sampleRate : ℕ) : List ℚ :=
  let windowSize := sampleRate * 2 / 100
  ((windowStarts windowSize (samples.length - windowSize)).map fun i =>
    estimatePitch ((samples.drop i).take windowSize) sampleRate).filter fun p => 0 < p

/-- `calculateRealTonalVariation` (audioAnalysis.js:342-376): score 2 for an
empty pitch track, otherwise the bucket cascade on
`sqrt(population variance) / mean`. -/
noncomputable def calculateRealTonalVariation (samples : List ℚ) (sampleRate : ℕ) : ℚ :=
  let pv := pitchValues samples sampleRate
  if pv.length = 0 then 2
  else
    let meanPitch := pv.sum / (pv.length : ℚ)
    let variance := (pv.map fun p => (p - meanPitch) ^ 2).sum / (pv.length : ℚ)
    let pitchVariation : ℝ := Real.sqrt (variance : ℝ)
    let variationFrac : ℝ := pitchVariation / (meanPitch : ℝ)
    if variationFrac < 1 / 20 then 2
    else if variationFrac < 3 / 20 then 3
    else if variationFrac < 1 / 4 then 5
    else if variationFrac < 7 / 20 then 4
    else 3

/-- `Math.round` for the nonnegative arguments used here:
round half toward `+∞`, i.e. `⌊x + 1/2⌋`. -/
def jsRound (x : ℚ) : ℚ := (⌊x + 1 / 2⌋ : ℤ)

/-- `calculateConfidenceFromMetrics` (audioAnalysis.js:381-404), with the
source's incremental accumulation and final
`Math.round(Math.min(5, Math.max(1, s)) * 10) / 10`. -/
def calculateConfidenceFromMetrics (volume clarity pace tonalVariation : ℚ) : ℚ :=
  let confidenceScore := volume * (3 / 10) + clarity * (3 / 10) + pace * (2 / 10)
  let confidenceScore :=
    if 3 ≤ tonalVariation ∧ tonalVariation ≤ 4 then confidenceScore + 1
    else confidenceScore + tonalVariation * (2 / 10)
  jsRound (min 5 (max 1 confidenceScore) * 10) / 10

/-- `calculateEnthusiasmFromMetrics` (audioAnalysis.js:409-429). -/
def calculateEnthusiasmFromMetrics (volume tonalVariation pace : ℚ) : ℚ :=
  let enthusiasmScore := volume * (4 / 10) + tonalVariation * (4 / 10)
  let enthusiasmScore :=
    if 4 ≤ pace then enthusiasmScore + 1
    else enthusiasmScore + pace * (2 / 10)
  jsRound (min 5 (max 1 enthusiasmScore) * 10) / 10

/-- The seven-field output record of `analyzeAudioProperties`. -/
structure DeliveryMetrics where
  pace : ℚ
  volume : ℚ
  clarity : ℚ
  pauseDuration : ℚ
  tonalVariation : ℚ
  confidence : ℚ
  enthusiasm : ℚ
deriving DecidableEq, Repr

/-- The fixed whole-record fallback of `analyzeAudioProperties`
(audioAnalysis.js:171-179): `{3.5, 4.0, 3.8, 2.1, 3.2, 3.7, 3.4}`. -/
def fallbackMetrics : DeliveryMetrics :=
  { pace := 7 / 2, volume := 4, clarity := 19 / 5, pauseDuration := 21 / 10,
    tonalVariation := 16 / 5, confidence := 37 / 10, enthusiasm := 17 / 5 }

/-- `analyzeAudioProperties` (audioAnalysis.js:146-181).  The body of the
outer `try` cannot throw: `extractSamplesFromBuffer` is total (see its
doc comment) and every `calculateReal*` stage catches its own exceptions
internally, so the whole-record `catch` branch returning `fallbackMetrics`
is unreachable and the function is modelled as the `try` body.
`duration` is `audioBuffer.length / (44100 * 2)` from `processAudioBuffer`
(audioAnalysis.js:183-201); the sample rate is the fixed 44100. -/
noncomputable def analyzeAudioProperties (audioBuffer : List Byte) : DeliveryMetrics :=
  let samples := extractSamplesFromBuffer audioBuffer
  let sampleRate : ℕ := 44100
  let duration : ℚ := (audioBuffer.length : ℚ) / (44100 * 2)
  let pace := calculateRealPace samples sampleRate
  let volume := calculateRealVolume samples
  let clarity := calculateRealClarity samples sampleRate
  let pauseDuration := calculateRealPauses samples sampleRate duration
  let tonalVariation := calculateRealTonalVariation samples sampleRate
  { pace := pace, volume := volume, clarity := clarity,
    pauseDuration := pauseDuration, tonalVariation := tonalVariation,
    confidence := calculateConfidenceFromMetrics volume clarity pace tonalVariation,
    enthusiasm := calculateEnthusiasmFromMetrics volume tonalVariation pace }

/-! ### Spec-side formulations

These definitions follow the wording of the specification (for the
refinement-style claims); the theorems below compare them with the
source-translated functions above. -/

/-- Spec №4.3: `speechRate = segmentCount / totalSpeechSeconds`
(0 if no speech time). -/
def speechRateOf (samples : List ℚ) (sampleRate : ℕ) : ℚ :=
  let speechSegments := detectSpeechSegments samples sampleRate
  let totalSpeechTime := (speechSegments.map fun s => s.stop - s.start).sum
  if 0 < totalSpeechTime then (speechSegments.length : ℚ) / totalSpeechTime else 0

/-- Spec №4.3: the fixed pace bucket table
`<1.5→2, <2.5→3, <4.0→5, <5.0→4, else→3`. -/
def paceScoreOfRate (speechRate : ℚ) : ℚ :=
  if speechRate < 3 / 2 then 2
  else if speechRate < 5 / 2 then 3
  else if speechRate < 4 then 5
  else if speechRate < 5 then 4
  else 3

/-- Spec №4.6: `confidence = 0.3*volume + 0.3*clarity + 0.2*pace
+ (tonalVariation ∈ [3,4] ? +1.0 : 0.2*tonalVariation)`, clamped to `[1,5]`
and rounded to one decimal place. -/
def confidenceSpec (pace volume clarity tonalVariation : ℚ) : ℚ :=
  jsRound (min 5 (max 1 (3 / 10 * volume + 3 / 10 * clarity + 2 / 10 * pace +
    (if 3 ≤ tonalVariation ∧ tonalVariation ≤ 4 then 1
     else 2 / 10 * tonalVariation))) * 10) / 10

/-- Spec №4.6: `enthusiasm = 0.4*volume + 0.4*tonalVariation
+ (pace ≥ 4 ? +1.0 : 0.2*pace)`, clamped to `[1,5]` and rounded to one
decimal place. -/
def enthusiasmSpec (pace volume tonalVariation : ℚ) : ℚ :=
  jsRound (min 5 (max 1 (4 / 10 * volume + 4 / 10 * tonalVariation +
    (if 4 ≤ pace then 1 else 2 / 10 * pace))) * 10) / 10

/-- Spec claim C6: the signed 16-bit little-endian integer formed by bytes
`2k` and `2k+1`, divided by `32768.0`. -/
def sampleSpec (buffer : List Byte) (k : ℕ) : ℚ :=
  (readInt16LE buffer (k * 2) : ℚ) / 32768

/-- Spec №4.4: the real part of the direct DFT of the (truncated) sample
list at frequency `k`. -/
noncomputable def dftRealPart (samples : List ℚ) (k : ℕ) : ℝ :=
  let N := min 1024 samples.length
  ∑ n in Finset.range N,
    ((samples.getD n 0 : ℚ) : ℝ) * Real.cos (2 * Real.pi * (k : ℝ) * (n : ℝ) / (N : ℝ))

/-- Spec №4.4: the imaginary part of the direct DFT of the (truncated)
sample list at frequency `k`. -/
noncomputable def dftImagPart (samples : List ℚ) (k : ℕ) : ℝ :=
  -(∑ n in Finset.range (min 1024 samples.length),
    ((samples.getD n 0 : ℚ) : ℝ) *
      Real.sin (2 * Real.pi * (k : ℝ) * (n : ℝ) / ((min 1024 samples.length : ℕ) : ℝ)))

/-- Spec №4.4: `bandEnergy(frame, loHz, hiHz)` — the sum of the magnitudes
over the bins `⌊loHz/binWidthHz⌋ … ⌊hiHz/binWidthHz⌋`, restricted to valid
indices. -/
noncomputable def bandEnergySpec (spectrum : List ℝ) (freqMin freqMax : ℚ)
    (sampleRate : ℕ) : ℝ :=
  let binSize : ℚ := (sampleRate : ℚ) / (2 * (spectrum.length : ℚ))
  ∑ i in (Finset.range spectrum.length).filter
    (fun (i : ℕ) => ⌊freqMin / binSize⌋ ≤ (i : ℤ) ∧ (i : ℤ) ≤ ⌊freqMax / binSize⌋),
    spectrum.getD i 0

/-! ### Helper lemmas -/

/-- Every exit of the pace bucket cascade is one of `2, 3, 4, 5`. -/
lemma calculateRealPace_mem (samples : List ℚ) (sampleRate : ℕ) :
    calculateRealPace samples sampleRate = 2 ∨ calculateRealPace samples sampleRate = 3 ∨
    calculateRealPace samples sampleRate = 4 ∨ calculateRealPace samples sampleRate = 5 := by
  unfold calculateRealPace
  dsimp only
  split_ifs <;> norm_num

/-- Every exit of the volume bucket cascade is one of `2, 3, 4, 5`. -/
lemma calculateRealVolume_mem (samples : List ℚ) :
    calculateRealVolume samples = 2 ∨ calculateRealVolume samples = 3 ∨
    calculateRealVolume samples = 4 ∨ calculateRealVolume samples = 5 := by
  unfold calculateRealVolume
  dsimp only
  split_ifs <;> norm_num

/-- Every exit of the clarity stage is one of `1, 2, 3, 4, 5` or the stage
default `19/5`. -/
lemma calculateRealClarity_mem (samples : List ℚ) (sampleRate : ℕ) :
    calculateRealClarity samples sampleRate = 1 ∨ calculateRealClarity samples sampleRate = 2 ∨
    calculateRealClarity samples sampleRate = 3 ∨ calculateRealClarity samples sampleRate = 4 ∨
    calculateRealClarity samples sampleRate = 5 ∨ calculateRealClarity samples sampleRate = 19 / 5 := by
  unfold calculateRealClarity
  rcases performFFT samples with _ | spectrum
  · norm_num
  · dsimp only
    split_ifs <;> norm_num

/-- Every exit of the pause bucket cascade is one of `2, 3, 4, 5`. -/
lemma calculateRealPauses_mem (samples : List ℚ) (sampleRate : ℕ) (duration : ℚ) :
    calculateRealPauses samples sampleRate duration = 2 ∨
    calculateRealPauses samples sampleRate duration = 3 ∨
    calculateRealPauses samples sampleRate duration = 4 ∨
    calculateRealPauses samples sampleRate duration = 5 := by
  unfold calculateRealPauses
  dsimp only
  split_ifs <;> norm_num

/-- Every exit of the tonal-variation stage is one of `2, 3, 4, 5`. -/
lemma calculateRealTonalVariation_mem (samples : List ℚ) (sampleRate : ℕ) :
    calculateRealTonalVariation samples sampleRate = 2 ∨
    calculateRealTonalVariation samples sampleRate = 3 ∨
    calculateRealTonalVariation samples sampleRate = 4 ∨
    calculateRealTonalVariation samples sampleRate = 5 := by
  unfold calculateRealTonalVariation
  dsimp only
  split_ifs <;> norm_num

/-- Clamping to `[1,5]` and then rounding to one decimal place stays in
`[1,5]`. -/
lemma jsRound_clamp_bounds (x : ℚ) :
    1 ≤ jsRound (min 5 (max 1 x) * 10) / 10 ∧ jsRound (min 5 (max 1 x) * 10) / 10 ≤ 5 := by
  have h1 : 1 ≤ min 5 (max 1 x) := le_min (by norm_num) (le_max_left 1 x)
  have h5 : min 5 (max 1 x) ≤ 5 := min_le_left 5 (max 1 x)
  have hlo : (10 : ℤ) ≤ ⌊min 5 (max 1 x) * 10 + 1 / 2⌋ := by
    rw [Int.le_floor]
    push_cast
    linarith
  have hhi : ⌊min 5 (max 1 x) * 10 + 1 / 2⌋ ≤ (50 : ℤ) := by
    rw [Int.floor_le_iff]
    push_cast
    linarith
  unfold jsRound
  constructor
  · rw [le_div_iff₀ (by norm_num : (0:ℚ) < 10)]
    exact_mod_cast hlo
  · rw [div_le_iff₀ (by norm_num : (0:ℚ) < 10)]
    calc (⌊min 5 (max 1 x) * 10 + 1 / 2⌋ : ℚ) ≤ (50 : ℤ) := by exact_mod_cast hhi
    _ ≤ 5 * 10 := by norm_num

/-- The confidence formula's output is in `[1,5]`. -/
lemma calculateConfidenceFromMetrics_bounds (v c p t : ℚ) :
    1 ≤ calculateConfidenceFromMetrics v c p t ∧ calculateConfidenceFromMetrics v c p t ≤ 5 := by
  unfold calculateConfidenceFromMetrics
  exact jsRound_clamp_bounds _

/-- The enthusiasm formula's output is in `[1,5]`. -/
lemma calculateEnthusiasmFromMetrics_bounds (v t p : ℚ) :
    1 ≤ calculateEnthusiasmFromMetrics v t p ∧ calculateEnthusiasmFromMetrics v t p ≤ 5 := by
  unfold calculateEnthusiasmFromMetrics
  exact jsRound_clamp_bounds _

/-- The computed record's `pauseDuration` is a bucket value, never the
fallback record's `2.1`; hence `analyzeAudioProperties` never returns
`fallbackMetrics` (the source's whole-record `catch` branch is dead). -/
lemma analyzeAudioProperties_ne_fallback (audioBuffer : List Byte) :
    analyzeAudioProperties audioBuffer ≠ fallbackMetrics := by
  intro h
  have hp : (analyzeAudioProperties audioBuffer).pauseDuration = 21 / 10 := by
    rw [h]
    norm_num [fallbackMetrics]
  have hmem := calculateRealPauses_mem (extractSamplesFromBuffer audioBuffer) 44100
    ((audioBuffer.length : ℚ) / (44100 * 2))
  have hp' : (analyzeAudioProperties audioBuffer).pauseDuration =
      calculateRealPauses (extractSamplesFromBuffer audioBuffer) 44100
        ((audioBuffer.length : ℚ) / (44100 * 2)) := rfl
  rw [hp'] at hp
  rcases hmem with h2 | h3 | h4 | h5 <;> [rw [h2] at hp; rw [h3] at hp; rw [h4] at hp;
    rw [h5] at hp] <;> norm_num at hp

/-! ### Claim C3 -/

/-- C3: for every input byte buffer (the pipeline always returns, and this
includes the all-zero and empty-sample cases), each of the seven output
fields `pace`, `volume`, `clarity`, `pauseDuration`, `tonalVariation`,
`confidence`, `enthusiasm` of `analyzeAudioProperties` lies in the closed
interval `[1, 5]`. -/
theorem c3_all_scores_in_one_to_five (audioBuffer : List Byte) :
    (analyzeAudioProperties audioBuffer).pace ∈ Set.Icc (1 : ℚ) 5 ∧
    (analyzeAudioProperties audioBuffer).volume ∈ Set.Icc (1 : ℚ) 5 ∧
    (analyzeAudioProperties audioBuffer).clarity ∈ Set.Icc (1 : ℚ) 5 ∧
    (analyzeAudioProperties audioBuffer).pauseDuration ∈ Set.Icc (1 : ℚ) 5 ∧
    (analyzeAudioProperties audioBuffer).tonalVariation ∈ Set.Icc (1 : ℚ) 5 ∧
    (analyzeAudioProperties audioBuffer).confidence ∈ Set.Icc (1 : ℚ) 5 ∧
    (analyzeAudioProperties audioBuffer).enthusiasm ∈ Set.Icc (1 : ℚ) 5 := by
  refine ⟨?_, ?_, ?_, ?_, ?_, ?_, ?_⟩
  · rcases calculateRealPace_mem (extractSamplesFromBuffer audioBuffer) 44100 with h | h | h | h <;>
      · show calculateRealPace _ _ ∈ _
        rw [h]; norm_num
  · rcases calculateRealVolume_mem (extractSamplesFromBuffer audioBuffer) with h | h | h | h <;>
      · show calculateRealVolume _ ∈ _
        rw [h]; norm_num
  · rcases calculateRealClarity_mem (extractSamplesFromBuffer audioBuffer) 44100
      with h | h | h | h | h | h <;>
      · show calculateRealClarity _ _ ∈ _
        rw [h]; norm_num
  · rcases calculateRealPauses_mem (extractSamplesFromBuffer audioBuffer) 44100
      ((audioBuffer.length : ℚ) / (44100 * 2)) with h | h | h | h <;>
      · show calculateRealPauses _ _ _ ∈ _
        rw [h]; norm_num
  · rcases calculateRealTonalVariation_mem (extractSamplesFromBuffer audioBuffer) 44100
      with h | h | h | h <;>
      · show calculateRealTonalVariation _ _ ∈ _
        rw [h]; norm_num
  · have := calculateConfidenceFromMetrics_bounds
      (calculateRealVolume (extractSamplesFromBuffer audioBuffer))
      (calculateRealClarity (extractSamplesFromBuffer audioBuffer) 44100)
      (calculateRealPace (extractSamplesFromBuffer audioBuffer) 44100)
      (calculateRealTonalVariation (extractSamplesFromBuffer audioBuffer) 44100)
    exact ⟨this.1, this.2⟩
  · have := calculateEnthusiasmFromMetrics_bounds
      (calculateRealVolume (extractSamplesFromBuffer audioBuffer))
      (calculateRealTonalVariation (extractSamplesFromBuffer audioBuffer) 44100)
      (calculateRealPace (extractSamplesFromBuffer audioBuffer) 44100)
    exact ⟨this.1, this.2⟩

/-! ### Claim C4 -/

/-- C4: for every tuple of primary scores, `calculateConfidenceFromMetrics`
equals `0.3*volume + 0.3*clarity + 0.2*pace` plus (`1.0` if
`3 ≤ tonalVariation ≤ 4`, else `0.2*tonalVariation`), and
`calculateEnthusiasmFromMetrics` equals `0.4*volume + 0.4*tonalVariation`
plus (`1.0` if `pace ≥ 4`, else `0.2*pace`), each clamped to `[1,5]` and
rounded to one decimal place (`confidenceSpec` / `enthusiasmSpec`).  Both
are functions of the primary scores alone, hence pure and deterministic. -/
theorem c4_confidence_enthusiasm_formulas (pace volume clarity tonalVariation : ℚ) :
    calculateConfidenceFromMetrics volume clarity pace tonalVariation =
      confidenceSpec pace volume clarity tonalVariation ∧
    calculateEnthusiasmFromMetrics volume tonalVariation pace =
      enthusiasmSpec pace volume tonalVariation := by
  constructor
  · unfold calculateConfidenceFromMetrics confidenceSpec
    dsimp only
    split_ifs <;> ring_nf
  · unfold calculateEnthusiasmFromMetrics enthusiasmSpec
    dsimp only
    split_ifs <;> ring_nf

/-! ### Claim C5 -/

/-- C5: the pace score equals the fixed non-monotonic bucket table
`paceScoreOfRate` applied to `speechRate = segmentCount / totalSpeechSeconds`
(0 when the total speech time is 0), and the table maps the rates
`1.0, 2.0, 3.0, 4.5, 6.0` to `2, 3, 5, 4, 3` respectively. -/
theorem c5_pace_bucket_table :
    (∀ (samples : List ℚ) (sampleRate : ℕ),
      calculateRealPace samples sampleRate = paceScoreOfRate (speechRateOf samples sampleRate)) ∧
    paceScoreOfRate 1 = 2 ∧ paceScoreOfRate 2 = 3 ∧ paceScoreOfRate 3 = 5 ∧
    paceScoreOfRate (9 / 2) = 4 ∧ paceScoreOfRate 6 = 3 := by
  refine ⟨fun samples sampleRate => rfl, ?_, ?_, ?_, ?_, ?_⟩ <;> norm_num [paceScoreOfRate]

/-! ### Claim C1 -/

/-- C1 (counterexample): the claim says that for a buffer of length 0 (or
odd length) decoding fails and `analyzeAudioProperties` returns exactly the
fallback record.  In fact decoding never fails — on the empty buffer it
returns the empty sample list, on a 3-byte buffer it returns one sample —
and on the empty buffer the returned record has `pace = 2`, not the
fallback's `3.5`, so the returned record is not `fallbackMetrics`. -/
theorem c1_counterexample :
    extractSamplesFromBuffer [] = [] ∧
    extractSamplesFromBuffer [0, 0, 0] = [0] ∧
    (analyzeAudioProperties []).pace = 2 ∧
    (analyzeAudioProperties []).pace ≠ fallbackMetrics.pace := by
  have h : windowStarts (44100 * 2 / 100) (List.length (extractSamplesFromBuffer ([] : List Byte))) = [] := by
    decide
  have hpace : (analyzeAudioProperties []).pace = 2 := by
    show calculateRealPace (extractSamplesFromBuffer []) 44100 = 2
    norm_num [calculateRealPace, detectSpeechSegments, h, segLoop]
  refine ⟨rfl, ?_, hpace, ?_⟩
  · norm_num [extractSamplesFromBuffer, readInt16LE, List.range_succ]
  · rw [hpace]
    norm_num [fallbackMetrics]

/-- C1 (amended): for every buffer of length 0 or odd length, decoding does
not fail — it succeeds with `⌊length/2⌋` samples, silently dropping the odd
trailing byte — and `analyzeAudioProperties` returns a record computed from
those samples, which is never the fallback record (its `pauseDuration` is a
bucket value `2/3/4/5`, not `2.1`). -/
theorem c1_decode_never_fails (audioBuffer : List Byte)
    (h : audioBuffer.length = 0 ∨ Odd audioBuffer.length) :
    (extractSamplesFromBuffer audioBuffer).length = audioBuffer.length / 2 ∧
    analyzeAudioProperties audioBuffer ≠ fallbackMetrics := by
  exact ⟨by simp [extractSamplesFromBuffer], analyzeAudioProperties_ne_fallback audioBuffer⟩

/-- C1 (witness): the amended claim instantiated at the empty buffer. -/
theorem c1_witness :
    (extractSamplesFromBuffer []).length = List.length ([] : List Byte) / 2 ∧
    analyzeAudioProperties [] ≠ fallbackMetrics :=
  c1_decode_never_fails [] (Or.inl rfl)

/-! ### Claim C2 -/

/-- C2 (counterexample): the claim says that whenever any analysis stage
throws, the entire output equals the fixed default record and no mixture of
computed and default fields is returned.  On the 2-byte buffer `[0, 0]` the
decoded sample list `[0]` has odd length `1 < 1024`, so the spectral stage
(`performFFT`) throws; the returned record has the clarity stage default
`3.8` *and* the computed `pace = 2` — a mixture that differs from the
fallback record. -/
theorem c2_counterexample :
    performFFT (extractSamplesFromBuffer [0, 0]) = Except.error () ∧
    (analyzeAudioProperties [0, 0]).clarity = 19 / 5 ∧
    (analyzeAudioProperties [0, 0]).pace = 2 ∧
    analyzeAudioProperties [0, 0] ≠ fallbackMetrics := by
  have hx : extractSamplesFromBuffer [0, 0] = [0] := by
    norm_num [extractSamplesFromBuffer, readInt16LE, List.range_succ]
  have h : windowStarts (44100 * 2 / 100) (List.length [(0 : ℚ)]) = [0] := by decide
  refine ⟨?_, ?_, ?_, analyzeAudioProperties_ne_fallback [0, 0]⟩
  · rw [hx]
    norm_num [performFFT]
  · show calculateRealClarity (extractSamplesFromBuffer [0, 0]) 44100 = 19 / 5
    rw [hx]
    norm_num [calculateRealClarity, performFFT]
  · show calculateRealPace (extractSamplesFromBuffer [0, 0]) 44100 = 2
    rw [hx]
    norm_num [calculateRealPace, detectSpeechSegments, h, segLoop, calculateWindowEnergy]

/-- C2 (amended): errors are indeed never propagated to the caller, but the
fallback is per-field, not atomic: when the spectral stage throws (decoded
sample count odd and below 1024) only `clarity` falls back to its stage
default `3.8`, while the other fields remain computed; the returned record is
then a mixture and in particular is not the whole-record default
`fallbackMetrics` (whose `pauseDuration` `2.1` can never be produced by the
computed path). -/
theorem c2_per_field_fallback (audioBuffer : List Byte)
    (h1 : Odd (audioBuffer.length / 2)) (h2 : audioBuffer.length / 2 < 1024) :
    (analyzeAudioProperties audioBuffer).clarity = 19 / 5 ∧
    analyzeAudioProperties audioBuffer ≠ fallbackMetrics := by
  have hlen : (extractSamplesFromBuffer audioBuffer).length = audioBuffer.length / 2 := by
    simp [extractSamplesFromBuffer]
  have hfft : performFFT (extractSamplesFromBuffer audioBuffer) = Except.error () := by
    unfold performFFT
    rw [if_pos]
    rw [hlen, min_eq_right (le_of_lt (lt_of_lt_of_le h2 (by norm_num)))]
    exact Nat.odd_iff.mp h1
  constructor
  · show calculateRealClarity (extractSamplesFromBuffer audioBuffer) 44100 = 19 / 5
    unfold calculateRealClarity
    rw [hfft]
  · exact analyzeAudioProperties_ne_fallback audioBuffer

/-- C2 (witness): the amended claim instantiated at the buffer `[0, 0]`,
whose decoded sample count is the odd number 1. -/
theorem c2_witness :
    (analyzeAudioProperties [0, 0]).clarity = 19 / 5 ∧
    analyzeAudioProperties [0, 0] ≠ fallbackMetrics :=
  c2_per_field_fallback [0, 0] (by decide) (by decide)

/-! ### Claim C6 -/

/-- The decoded 16-bit value always lies in `[-32768, 32767]`. -/
lemma readInt16LE_bounds (buffer : List Byte) (off : ℕ) :
    -32768 ≤ readInt16LE buffer off ∧ readInt16LE buffer off < 32768 := by
  unfold readInt16LE
  have ha : (buffer.getD off 0).val < 256 := (buffer.getD off 0).isLt
  have hb : (buffer.getD (off + 1) 0).val < 256 := (buffer.getD (off + 1) 0).isLt
  dsimp only
  split_ifs with h <;> omega

/-- C6 (counterexample): the claim says every decoded sample lies in the
half-open interval `(-1, 1]`.  The 2-byte buffer `0x00 0x80` decodes to the
single sample `-32768/32768 = -1`, which violates the claimed strict lower
bound. -/
theorem c6_counterexample :
    extractSamplesFromBuffer [0, 128] = [-1] ∧
    ¬(-1 < (extractSamplesFromBuffer [0, 128]).getD 0 0) := by
  have h128 : ((128 : Byte) : ℕ) = 128 := rfl
  have h : extractSamplesFromBuffer [0, 128] = [-1] := by
    norm_num [extractSamplesFromBuffer, readInt16LE, List.range_succ, h128]
  exact ⟨h, by rw [h]; norm_num⟩

/-- C6 (amended): for every byte buffer of even positive length, decoding
never raises and produces exactly `length/2` samples, the `k`-th being the
signed 16-bit little-endian integer of bytes `2k`, `2k+1` divided by
`32768.0` (`sampleSpec`) — a value in the half-open interval `[-1, 1)`
(it can equal `-1`, and `32767/32768` is the maximum). -/
theorem c6_decode_even_buffers (buffer : List Byte)
    (hpos : 0 < buffer.length) (heven : buffer.length % 2 = 0) :
    (extractSamplesFromBuffer buffer).length = buffer.length / 2 ∧
    ∀ k, k < buffer.length / 2 →
      (extractSamplesFromBuffer buffer).getD k 0 = sampleSpec buffer k ∧
      -1 ≤ (extractSamplesFromBuffer buffer).getD k 0 ∧
      (extractSamplesFromBuffer buffer).getD k 0 < 1 := by
  refine ⟨by simp [extractSamplesFromBuffer], fun k hk => ?_⟩
  have hval : (extractSamplesFromBuffer buffer).getD k 0 = sampleSpec buffer k := by
    unfold extractSamplesFromBuffer sampleSpec
    rw [List.getD_eq_getElem?_getD, List.getElem?_map, List.getElem?_range hk]
    rfl
  refine ⟨hval, ?_, ?_⟩ <;> rw [hval] <;> unfold sampleSpec
  · rw [le_div_iff₀ (by norm_num : (0:ℚ) < 32768)]
    have := (readInt16LE_bounds buffer (k * 2)).1
    have : (-32768 : ℚ) ≤ (readInt16LE buffer (k * 2) : ℚ) := by exact_mod_cast this
    linarith
  · rw [div_lt_iff₀ (by norm_num : (0:ℚ) < 32768)]
    have := (readInt16LE_bounds buffer (k * 2)).2
    have : (readInt16LE buffer (k * 2) : ℚ) < 32768 := by exact_mod_cast this
    linarith

/-- C6 (witness): the amended claim instantiated at the buffer `0x00 0x80`,
whose single sample is exactly `-1`. -/
theorem c6_witness :
    (extractSamplesFromBuffer [0, 128]).length = List.length [(0 : Byte), 128] / 2 ∧
    (extractSamplesFromBuffer [0, 128]).getD 0 0 = sampleSpec [0, 128] 0 ∧
    -1 ≤ (extractSamplesFromBuffer [0, 128]).getD 0 0 ∧
    (extractSamplesFromBuffer [0, 128]).getD 0 0 < 1 := by
  obtain ⟨h1, h2⟩ := c6_decode_even_buffers [0, 128] (by norm_num) (by norm_num)
  exact ⟨h1, h2 0 (by norm_num)⟩

/-! ### Segmentation invariants (Claims C8, C9) -/

/-- Every visited window start is strictly below the buffer length. -/
lemma windowStarts_lt {w len i : ℕ} (h : i ∈ windowStarts w len) : i < len := by
  unfold windowStarts at h
  split_ifs at h with hw
  · simp at h
  · obtain ⟨k, hk, rfl⟩ := List.mem_map.mp h
    have hk' : k < (len + w - 1) / w := List.mem_range.mp hk
    have hw1 : 1 ≤ w := Nat.one_le_iff_ne_zero.mpr hw
    have h1 := Nat.le_div_iff_mul_le (Nat.pos_of_ne_zero hw) |>.mp hk'
    have h2 := Nat.succ_mul k w
    omega

/-- The window starts are strictly increasing. -/
lemma windowStarts_pairwise (w len : ℕ) : (windowStarts w len).Pairwise (· < ·) := by
  unfold windowStarts
  split_ifs with hw
  · exact List.Pairwise.nil
  · refine (List.pairwise_lt_range _).map _ (fun a b hab => ?_)
    exact (Nat.mul_lt_mul_right (Nat.pos_of_ne_zero hw)).mpr hab

/-- Strict monotonicity of window-start times. -/
lemma timeOf_lt {rate : ℕ} (hr : 0 < rate) {a b : ℕ} (h : a < b) :
    (a : ℚ) / (rate : ℚ) < (b : ℚ) / (rate : ℚ) := by
  have hrq : (0 : ℚ) < (rate : ℚ) := by exact_mod_cast hr
  exact (div_lt_div_iff_of_pos_right hrq).mpr (by exact_mod_cast h)

/-- Monotonicity of window-start times. -/
lemma timeOf_le {rate : ℕ} {a b : ℕ} (h : a ≤ b) :
    (a : ℚ) / (rate : ℚ) ≤ (b : ℚ) / (rate : ℚ) := by
  rcases Nat.eq_zero_or_pos rate with hz | hp
  · simp [hz]
  · have hrq : (0 : ℚ) < (rate : ℚ) := by exact_mod_cast hp
    exact (div_le_div_iff_of_pos_right hrq).mpr (by exact_mod_cast h)

/-- Loop invariant for the segmentation state machine: provided the visited
window starts are strictly increasing and the incoming state is consistent
(all closed segments are well-formed, time-ordered, and end no later than the
current position; an open run started strictly before every remaining
window), all produced segments are well-formed and time-ordered. -/
lemma segLoop_invariant (samples : List ℚ) (w rate : ℕ) (isOn : ℚ → Bool)
    (minDur : Option ℚ) (hr : 0 < rate) :
    ∀ (starts : List ℕ), starts.Pairwise (· < ·) →
    ∀ (inRun : Bool) (runStart : ℚ) (acc : List TimeSegment),
      (∀ seg ∈ acc, seg.start < seg.stop) →
      acc.Chain' (fun a b => a.stop ≤ b.start) →
      (inRun = true → ∃ j : ℕ, runStart = (j : ℚ) / (rate : ℚ) ∧
        (∀ i ∈ starts, j < i) ∧ (∀ seg ∈ acc, seg.stop ≤ runStart)) →
      (inRun = false → ∀ seg ∈ acc, ∀ i ∈ starts, seg.stop ≤ (i : ℚ) / (rate : ℚ)) →
      (∀ seg ∈ segLoop samples w rate isOn minDur starts inRun runStart acc,
        seg.start < seg.stop) ∧
      (segLoop samples w rate isOn minDur starts inRun runStart acc).Chain'
        (fun a b => a.stop ≤ b.start) := by
  intro starts
  induction starts with
  | nil =>
    intro _ inRun runStart acc hwf hchain _ _
    exact ⟨by simpa [segLoop] using hwf, by simpa [segLoop] using hchain⟩
  | cons i rest ih =>
    intro hpw inRun runStart acc hwf hchain hOpen hClosed
    have hpw' : rest.Pairwise (· < ·) := (List.pairwise_cons.mp hpw).2
    have hiRest : ∀ i' ∈ rest, i < i' := (List.pairwise_cons.mp hpw).1
    simp only [segLoop]
    rcases hOn : isOn (calculateWindowEnergy ((samples.drop i).take w)) with _ | _ <;>
      rcases hRun : inRun with _ | _
    · -- quiet window, quiet state: no transition
      simp only [Bool.false_and, Bool.and_false, Bool.not_false, Bool.true_and,
        Bool.false_eq_true, if_false]
      apply ih hpw' false runStart acc hwf hchain (by simp)
      intro _ seg hseg i' hi'
      exact hClosed hRun seg hseg i' (List.mem_cons_of_mem i hi')
    · -- quiet window, active state: close the run at `i / rate`
      simp only [Bool.false_and, Bool.not_false, Bool.true_and,
        Bool.false_eq_true, if_false, if_true]
      obtain ⟨j, hj, hjlt, hjstop⟩ := hOpen hRun
      have hji : j < i := hjlt i (List.mem_cons_self i rest)
      have hlt : runStart < (i : ℚ) / (rate : ℚ) := hj ▸ timeOf_lt hr hji
      have hstep : ∀ (acc' : List TimeSegment),
          (∀ seg ∈ acc', seg.start < seg.stop) →
          acc'.Chain' (fun a b => a.stop ≤ b.start) →
          (∀ seg ∈ acc', ∀ i' ∈ rest, seg.stop ≤ (i' : ℚ) / (rate : ℚ)) →
          (∀ seg ∈ segLoop samples w rate isOn minDur rest false runStart acc',
            seg.start < seg.stop) ∧
          (segLoop samples w rate isOn minDur rest false runStart acc').Chain'
            (fun a b => a.stop ≤ b.start) := by
        intro acc' hwf' hchain' hbound'
        exact ih hpw' false runStart acc' hwf' hchain' (by simp)
          (fun _ => hbound')
      have hPushWf : ∀ seg ∈ acc ++ [(⟨runStart, (i : ℚ) / (rate : ℚ)⟩ : TimeSegment)],
          seg.start < seg.stop := by
        intro seg hseg
        rcases List.mem_append.mp hseg with h | h
        · exact hwf seg h
        · rcases List.mem_singleton.mp h with rfl
          exact hlt
      have hPushChain : (acc ++ [(⟨runStart, (i : ℚ) / (rate : ℚ)⟩ : TimeSegment)]).Chain'
          (fun a b => a.stop ≤ b.start) := by
        rw [List.chain'_append]
        refine ⟨hchain, List.chain'_singleton _, ?_⟩
        intro x hx y hy
        rcases Option.mem_def.mp hy with rfl | _
        have hxmem : x ∈ acc := by
          obtain ⟨hne, rfl⟩ := List.mem_getLast?_eq_getLast hx
          exact List.getLast_mem hne
        exact hjstop x hxmem
      have hPushBound : ∀ seg ∈ acc ++ [(⟨runStart, (i : ℚ) / (rate : ℚ)⟩ : TimeSegment)],
          ∀ i' ∈ rest, seg.stop ≤ (i' : ℚ) / (rate : ℚ) := by
        intro seg hseg i' hi'
        have hii' : i < i' := hiRest i' hi'
        rcases List.mem_append.mp hseg with h | h
        · calc seg.stop ≤ runStart := hjstop seg h
            _ ≤ (i' : ℚ) / (rate : ℚ) := hj ▸ timeOf_le (le_of_lt (lt_trans hji hii'))
        · rcases List.mem_singleton.mp h with rfl
          exact timeOf_le (le_of_lt hii')
      have hKeepBound : ∀ seg ∈ acc, ∀ i' ∈ rest, seg.stop ≤ (i' : ℚ) / (rate : ℚ) := by
        intro seg hseg i' hi'
        calc seg.stop ≤ runStart := hjstop seg hseg
          _ ≤ (i' : ℚ) / (rate : ℚ) :=
            hj ▸ timeOf_le (le_of_lt (lt_trans hji (hiRest i' hi')))
      rcases minDur with _ | d
      · exact hstep _ hPushWf hPushChain hPushBound
      · dsimp only
        split_ifs with hdur
        · exact hstep _ hPushWf hPushChain hPushBound
        · exact hstep _ hwf hchain hKeepBound
    · -- loud window, quiet state: open a run at `i / rate`
      simp only [Bool.true_and, Bool.not_false, if_true]
      apply ih hpw' true ((i : ℚ) / (rate : ℚ)) acc hwf hchain
      · intro _
        exact ⟨i, rfl, hiRest, fun seg hseg =>
          hClosed hRun seg hseg i (List.mem_cons_self i rest)⟩
      · simp
    · -- loud window, active state: no transition
      simp only [Bool.not_true, Bool.and_false, Bool.false_and,
        Bool.false_eq_true, if_false]
      apply ih hpw' true runStart acc hwf hchain
      · intro _
        obtain ⟨j, hj, hjlt, hjstop⟩ := hOpen hRun
        exact ⟨j, hj, fun i' hi' => hjlt i' (List.mem_cons_of_mem i hi'), hjstop⟩
      · simp

/-- Every segment produced by the loop was either already in the accumulator
or was closed at some visited window start. -/
lemma segLoop_stop_mem (samples : List ℚ) (w rate : ℕ) (isOn : ℚ → Bool)
    (minDur : Option ℚ) :
    ∀ (starts : List ℕ) (inRun : Bool) (runStart : ℚ) (acc : List TimeSegment),
      ∀ seg ∈ segLoop samples w rate isOn minDur starts inRun runStart acc,
        seg ∈ acc ∨ ∃ i ∈ starts, seg.stop = (i : ℚ) / (rate : ℚ) := by
  intro starts
  induction starts with
  | nil =>
    intro inRun runStart acc seg hseg
    simp only [segLoop] at hseg
    exact Or.inl hseg
  | cons i rest ih =>
    intro inRun runStart acc seg hseg
    simp only [segLoop] at hseg
    have hcons : ∀ {x : ℕ}, x ∈ rest → x ∈ i :: rest := fun hx => List.mem_cons_of_mem i hx
    split_ifs at hseg with h1 h2
    · rcases ih true _ acc seg hseg with h | ⟨i', hi', he⟩
      · exact Or.inl h
      · exact Or.inr ⟨i', hcons hi', he⟩
    · rcases minDur with _ | d
      · rcases ih false runStart _ seg hseg with h | ⟨i', hi', he⟩
        · rcases List.mem_append.mp h with h' | h'
          · exact Or.inl h'
          · rcases List.mem_singleton.mp h' with rfl
            exact Or.inr ⟨i, List.mem_cons_self i rest, rfl⟩
        · exact Or.inr ⟨i', hcons hi', he⟩
      · dsimp only at hseg
        by_cases hdur : d ≤ (i : ℚ) / (rate : ℚ) - runStart
        · rw [if_pos hdur] at hseg
          rcases ih false runStart _ seg hseg with h | ⟨i', hi', he⟩
          · rcases List.mem_append.mp h with h' | h'
            · exact Or.inl h'
            · rcases List.mem_singleton.mp h' with rfl
              exact Or.inr ⟨i, List.mem_cons_self i rest, rfl⟩
          · exact Or.inr ⟨i', hcons hi', he⟩
        · rw [if_neg hdur] at hseg
          rcases ih false runStart acc seg hseg with h | ⟨i', hi', he⟩
          · exact Or.inl h
          · exact Or.inr ⟨i', hcons hi', he⟩
    · rcases ih inRun runStart acc seg hseg with h | ⟨i', hi', he⟩
      · exact Or.inl h
      · exact Or.inr ⟨i', hcons hi', he⟩

/-! ### Claim C8 -/

/-- C8: the loop closes segments only at visited window starts, which all lie
strictly inside the buffer; a speech run still open when the buffer is
exhausted is dropped.  Hence no speech segment ever ends at
`durationSeconds = samples.length / sampleRate` or later: every produced
segment ends strictly earlier. -/
theorem c8_trailing_open_segment_dropped (samples : List ℚ) (sampleRate : ℕ)
    (hr : 0 < sampleRate) :
    ∀ seg ∈ detectSpeechSegments samples sampleRate,
      seg.stop < (samples.length : ℚ) / (sampleRate : ℚ) := by
  intro seg hseg
  rcases segLoop_stop_mem samples (sampleRate * 2 / 100) sampleRate _ none
    (windowStarts (sampleRate * 2 / 100) samples.length) false 0 [] seg hseg with
    h | ⟨i, hi, he⟩
  · simp at h
  · rw [he]
    exact timeOf_lt hr (windowStarts_lt hi)

/-- C8 (witness): at `sampleRate = 50` the buffer `[1, 0]` produces the
single speech segment `[0, 1/50)`, which ends strictly before the buffer
duration `2/50`. -/
theorem c8_witness :
    (⟨0, 1 / 50⟩ : TimeSegment) ∈ detectSpeechSegments [1, 0] 50 ∧
    (⟨0, 1 / 50⟩ : TimeSegment).stop <
      (List.length [(1 : ℚ), 0] : ℚ) / ((50 : ℕ) : ℚ) := by
  have hm : (⟨0, 1 / 50⟩ : TimeSegment) ∈ detectSpeechSegments [1, 0] 50 := by
    have h : windowStarts (50 * 2 / 100) (List.length [(1 : ℚ), 0]) = [0, 1] := by decide
    norm_num [detectSpeechSegments, h, segLoop, calculateWindowEnergy]
  exact ⟨hm, c8_trailing_open_segment_dropped [1, 0] 50 (by norm_num) _ hm⟩

/-! ### Claim C9 -/

/-- C9: for every input buffer (and any silence threshold and minimum
duration), both the speech-segment list and the silence-segment list consist
of segments with `end` strictly greater than `start`, listed in increasing
time order and pairwise non-overlapping (each segment ends no later than the
next one starts). -/
theorem c9_segments_wellformed_ordered (samples : List ℚ) (sampleRate : ℕ)
    (threshold minDuration : ℚ) (hr : 0 < sampleRate) :
    (∀ seg ∈ detectSpeechSegments samples sampleRate, seg.start < seg.stop) ∧
    (detectSpeechSegments samples sampleRate).Chain' (fun a b => a.stop ≤ b.start) ∧
    (∀ seg ∈ detectSilentSegments samples sampleRate threshold minDuration,
      seg.start < seg.stop) ∧
    (detectSilentSegments samples sampleRate threshold minDuration).Chain'
      (fun a b => a.stop ≤ b.start) := by
  have hs := segLoop_invariant samples (sampleRate * 2 / 100) sampleRate
    (fun e => decide (1 / 1000 < e)) none hr
    (windowStarts (sampleRate * 2 / 100) samples.length)
    (windowStarts_pairwise _ _) false 0 []
    (by simp) (by simp) (by simp) (by simp)
  have ht := segLoop_invariant samples (sampleRate / 100) sampleRate
    (fun e => decide (e < threshold)) (some minDuration) hr
    (windowStarts (sampleRate / 100) samples.length)
    (windowStarts_pairwise _ _) false 0 []
    (by simp) (by simp) (by simp) (by simp)
  exact ⟨hs.1, hs.2, ht.1, ht.2⟩

/-- C9 (witness): at `sampleRate = 100` with threshold `1/100` and minimum
duration `1/100`, the buffer `[0, 0, 1, 1, 0, 0]` produces the speech
segment `[1/50, 1/25)` and the silence segment `[0, 1/50)`; both are
well-formed by the theorem. -/
theorem c9_witness :
    (⟨1 / 50, 1 / 25⟩ : TimeSegment) ∈ detectSpeechSegments [0, 0, 1, 1, 0, 0] 100 ∧
    (1 / 50 : ℚ) < (1 / 25 : ℚ) ∧
    (⟨0, 1 / 50⟩ : TimeSegment) ∈
      detectSilentSegments [0, 0, 1, 1, 0, 0] 100 (1 / 100) (1 / 100) ∧
    (0 : ℚ) < (1 / 50 : ℚ) := by
  have hws : windowStarts (100 * 2 / 100) (List.length [(0 : ℚ), 0, 1, 1, 0, 0]) =
      [0, 2, 4] := by decide
  have hwt : windowStarts (100 / 100) (List.length [(0 : ℚ), 0, 1, 1, 0, 0]) =
      [0, 1, 2, 3, 4, 5] := by decide
  have hm1 : (⟨1 / 50, 1 / 25⟩ : TimeSegment) ∈
      detectSpeechSegments [0, 0, 1, 1, 0, 0] 100 := by
    norm_num [detectSpeechSegments, hws, segLoop, calculateWindowEnergy]
  have hm2 : (⟨0, 1 / 50⟩ : TimeSegment) ∈
      detectSilentSegments [0, 0, 1, 1, 0, 0] 100 (1 / 100) (1 / 100) := by
    norm_num [detectSilentSegments, hwt, segLoop, calculateWindowEnergy]
  have h9 := c9_segments_wellformed_ordered [0, 0, 1, 1, 0, 0] 100 (1 / 100) (1 / 100)
    (by norm_num)
  exact ⟨hm1, h9.1 _ hm1, hm2, h9.2.2.1 _ hm2⟩

/-! ### Claim C10 -/

/-- A fold whose step either keeps the accumulator's first component or
replaces it by the current list element ends with the initial first
component or a list element. -/
lemma foldl_fst_mem (step : (ℕ × ℚ) → ℕ → (ℕ × ℚ))
    (hstep : ∀ b p, (step b p).1 = b.1 ∨ (step b p).1 = p) :
    ∀ (l : List ℕ) (b : ℕ × ℚ), (l.foldl step b).1 = b.1 ∨ (l.foldl step b).1 ∈ l := by
  intro l
  induction l with
  | nil => intro b; exact Or.inl rfl
  | cons p rest ih =>
    intro b
    rw [List.foldl_cons]
    rcases ih (step b p) with h | h
    · rcases hstep b p with h' | h'
      · exact Or.inl (h.trans h')
      · refine Or.inr ?_
        rw [h, h']
        exact List.mem_cons_self p rest
    · exact Or.inr (List.mem_cons_of_mem p h)

/-- `estimatePitch` returns 0 or `sampleRate / lag` for a lag inside the
autocorrelation search band `[⌊sampleRate/800⌋, ⌊sampleRate/80⌋]`. -/
lemma estimatePitch_shape (window : List ℚ) (sampleRate : ℕ) :
    estimatePitch window sampleRate = 0 ∨
    ∃ lag : ℕ, sampleRate / 800 ≤ lag ∧ lag ≤ sampleRate / 80 ∧ 0 < lag ∧
      estimatePitch window sampleRate = (sampleRate : ℚ) / (lag : ℚ) := by
  unfold estimatePitch
  dsimp only
  generalize hstepeq : (fun (best : ℕ × ℚ) (period : ℕ) =>
    if window.length - period = 0 then best
    else
      if best.2 < ((List.range (window.length - period)).map fun j =>
          window.getD j 0 * window.getD (j + period) 0).sum / ((window.length - period : ℕ) : ℚ)
        then (period, ((List.range (window.length - period)).map fun j =>
          window.getD j 0 * window.getD (j + period) 0).sum / ((window.length - period : ℕ) : ℚ))
        else best) = step
  have hstep : ∀ b p, (step b p).1 = b.1 ∨ (step b p).1 = p := by
    intro b p
    rw [← hstepeq]
    dsimp only
    split_ifs <;> simp
  rcases foldl_fst_mem step hstep
    (List.range' (sampleRate / 800) (sampleRate / 80 + 1 - sampleRate / 800)) ((0, 0) : ℕ × ℚ)
    with h | h
  · rw [h]
    simp
  · have hb := List.mem_range'_1.mp h
    have hle : sampleRate / 800 ≤ sampleRate / 80 :=
      Nat.div_le_div_left (by norm_num) (by norm_num)
    set lag := ((List.range' (sampleRate / 800) (sampleRate / 80 + 1 - sampleRate / 800)).foldl
      step ((0, 0) : ℕ × ℚ)).1 with hlag
    by_cases hpos : 0 < lag
    · refine Or.inr ⟨lag, hb.1, by omega, hpos, ?_⟩
      rw [if_pos hpos]
    · rw [if_neg hpos]
      exact Or.inl rfl

/-- C10: every value collected into the pitch track is strictly positive and
equals `sampleRate / lag` for some integer lag with
`⌊sampleRate/800⌋ ≤ lag ≤ ⌊sampleRate/80⌋`; windows that yield no strictly
positive pitch estimate (in particular, windows with no positive-correlation
lag, for which `estimatePitch` returns 0) contribute nothing to the track. -/
theorem c10_pitch_track_in_band (samples : List ℚ) (sampleRate : ℕ) (p : ℚ)
    (hp : p ∈ pitchValues samples sampleRate) :
    0 < p ∧ ∃ lag : ℕ, sampleRate / 800 ≤ lag ∧ lag ≤ sampleRate / 80 ∧ 0 < lag ∧
      p = (sampleRate : ℚ) / (lag : ℚ) := by
  unfold pitchValues at hp
  obtain ⟨hmem, hposb⟩ := List.mem_filter.mp hp
  have hpos : 0 < p := of_decide_eq_true hposb
  obtain ⟨i, _, hpe⟩ := List.mem_map.mp hmem
  rcases estimatePitch_shape ((samples.drop i).take (sampleRate * 2 / 100)) sampleRate with
    h0 | ⟨lag, h1, h2, h3, h4⟩
  · rw [← hpe, h0] at hpos
    exact absurd hpos (by norm_num)
  · exact ⟨hpos, lag, h1, h2, h3, by rw [← hpe, h4]⟩

/-- Helper for the C10 witness: reading inside the all-ones window. -/
lemma getD_replicate_one (i : ℕ) (h : i < 16) :
    (List.replicate 16 (1 : ℚ))[i]?.getD 0 = 1 := by
  rw [List.getElem?_replicate, if_pos h, Option.getD_some]

/-- Helper for the C10 witness: the autocorrelation of the all-ones window
at shift `p` over `cnt` terms is `cnt`. -/
lemma corr_ones (p cnt : ℕ) (h : cnt + p ≤ 16) :
    (List.map (fun j =>
      (List.replicate 16 (1 : ℚ))[j]?.getD 0 * (List.replicate 16 (1 : ℚ))[j + p]?.getD 0)
      (List.range cnt)).sum = cnt := by
  induction cnt with
  | zero => simp
  | succ n ih =>
    rw [List.range_succ, List.map_append, List.sum_append, ih (by omega)]
    rw [List.map_singleton, List.sum_singleton,
      getD_replicate_one _ (by omega), getD_replicate_one _ (by omega)]
    push_cast
    ring

/-- C10 (witness): at `sampleRate = 800` the constant buffer of seventeen
`1.0` samples yields the pitch track `[800]`; the theorem places `800` in
the search band (`lag = 1`). -/
theorem c10_witness :
    (800 : ℚ) ∈ pitchValues (List.replicate 17 1) 800 ∧
    (0 : ℚ) < 800 ∧ ∃ lag : ℕ, 800 / 800 ≤ lag ∧ lag ≤ 800 / 80 ∧ 0 < lag ∧
      (800 : ℚ) = ((800 : ℕ) : ℚ) / (lag : ℚ) := by
  have hm : (800 : ℚ) ∈ pitchValues (List.replicate 17 1) 800 := by
    have hws : windowStarts 16 1 = [0] := by decide
    have hep : estimatePitch (List.replicate 16 (1 : ℚ)) 800 = 800 := by
      have hr : List.range' (800 / 800) (800 / 80 + 1 - 800 / 800) =
          [1, 2, 3, 4, 5, 6, 7, 8, 9, 10] := by decide
      norm_num [estimatePitch, hr, corr_ones]
    norm_num [pitchValues, hws, hep]
  have h := c10_pitch_track_in_band (List.replicate 17 1) 800 800 hm
  exact ⟨hm, h.1, h.2⟩

/-! ### Claim C7 -/

/-- The band-summation loop equals the sum over the in-range bin indices at
or above the start index. -/
lemma sumBins_eq_filtered_sum (spectrum : List ℝ) (binMax : ℤ) :
    ∀ (fuel a : ℕ), spectrum.length - a ≤ fuel →
      sumBins spectrum binMax a = ∑ i in (Finset.range spectrum.length).filter
        (fun i => a ≤ i ∧ (i : ℤ) ≤ binMax), spectrum.getD i 0 := by
  intro fuel
  induction fuel with
  | zero =>
    intro a ha
    rw [sumBins, dif_neg (by omega : ¬((a : ℤ) ≤ binMax ∧ a < spectrum.length))]
    symm
    rw [Finset.sum_eq_zero_iff_of_nonneg]
    · intro i hi
      have := Finset.mem_filter.mp hi
      have := Finset.mem_range.mp this.1
      omega
    · intro i hi
      have := Finset.mem_filter.mp hi
      have h1 := Finset.mem_range.mp this.1
      have h2 := this.2.1
      omega
  | succ n ih =>
    intro a ha
    rw [sumBins]
    split_ifs with h
    · rw [ih (a + 1) (by omega)]
      have hins : (Finset.range spectrum.length).filter
          (fun i => a ≤ i ∧ (i : ℤ) ≤ binMax) =
          insert a ((Finset.range spectrum.length).filter
            (fun i => a + 1 ≤ i ∧ (i : ℤ) ≤ binMax)) := by
        ext i
        simp only [Finset.mem_filter, Finset.mem_insert, Finset.mem_range]
        omega
      rw [hins, Finset.sum_insert (by simp)]
    · symm
      rw [Finset.sum_eq_zero]
      intro i hi
      have h1 := Finset.mem_filter.mp hi
      have h2 := Finset.mem_range.mp h1.1
      have h3 := h1.2.1
      have h4 := h1.2.2
      omega

/-- C7 (counterexample): the claim says the spectral analysis produces
exactly `N/2` magnitude bins for every input.  On a single-sample input
`N = min(1024, 1) = 1` is odd, the JS `new Array(0.5)` throws a
`RangeError`, and `performFFT` produces no bins at all. -/
theorem c7_counterexample : performFFT [0] = Except.error () := by
  norm_num [performFFT]

/-- C7 (amended): whenever `N = min(1024, samples.length)` is even (for odd
`N` the transform throws, see the counterexample), `performFFT` succeeds and
produces exactly `N/2` magnitude bins, bin `k` being
`sqrt(realSum² + imagSum²)` of the direct DFT at frequency `k`
(`dftRealPart`/`dftImagPart`, with bin width `sampleRate / (2 * (N/2))`);
and `getFrequencyRange` (band energy) equals the sum of the magnitudes over
the bins `⌊loHz/binWidth⌋ … ⌊hiHz/binWidth⌋` clamped to the valid index
range (`bandEnergySpec`). -/
theorem c7_spectral_analysis (s : List ℚ) (hN : min 1024 s.length % 2 = 0)
    (spectrum : List ℝ) (lo hi : ℚ) (rate : ℕ) (hlo : 0 ≤ lo) :
    performFFT s = Except.ok (fftMagnitudes s) ∧
    (fftMagnitudes s).length = min 1024 s.length / 2 ∧
    (∀ k, k < min 1024 s.length / 2 →
      (fftMagnitudes s).getD k 0 =
        Real.sqrt (dftRealPart s k ^ 2 + dftImagPart s k ^ 2)) ∧
    getFrequencyRange spectrum lo hi rate = bandEnergySpec spectrum lo hi rate := by
  refine ⟨?_, ?_, ?_, ?_⟩
  · rw [performFFT, if_neg (by omega)]
  · simp only [fftMagnitudes, List.length_map, List.length_range]
  · intro k hk
    unfold fftMagnitudes
    dsimp only
    rw [List.getD_eq_getElem?_getD, List.getElem?_map, List.getElem?_range hk,
      Option.map_some', Option.getD_some]
    have hre : (∑ n in Finset.range (min 1024 s.length),
        ((if n < s.length then ((s.getD n 0 : ℚ) : ℝ) else 0) *
            Real.cos (-(2 * Real.pi * (k : ℝ) * (n : ℝ)) / ((min 1024 s.length : ℕ) : ℝ)) -
          0 * Real.sin (-(2 * Real.pi * (k : ℝ) * (n : ℝ)) / ((min 1024 s.length : ℕ) : ℝ)))) =
        dftRealPart s k := by
      unfold dftRealPart
      dsimp only
      apply Finset.sum_congr rfl
      intro n hn
      have hn' : n < s.length :=
        lt_of_lt_of_le (Finset.mem_range.mp hn) (min_le_right _ _)
      rw [if_pos hn', neg_div, Real.cos_neg]
      ring
    have him : (∑ n in Finset.range (min 1024 s.length),
        ((if n < s.length then ((s.getD n 0 : ℚ) : ℝ) else 0) *
            Real.sin (-(2 * Real.pi * (k : ℝ) * (n : ℝ)) / ((min 1024 s.length : ℕ) : ℝ)) +
          0 * Real.cos (-(2 * Real.pi * (k : ℝ) * (n : ℝ)) / ((min 1024 s.length : ℕ) : ℝ)))) =
        dftImagPart s k := by
      unfold dftImagPart
      rw [← Finset.sum_neg_distrib]
      apply Finset.sum_congr rfl
      intro n hn
      have hn' : n < s.length :=
        lt_of_lt_of_le (Finset.mem_range.mp hn) (min_le_right _ _)
      rw [if_pos hn', neg_div, Real.sin_neg]
      ring
    rw [hre, him]
  · unfold getFrequencyRange bandEnergySpec
    dsimp only
    rw [sumBins_eq_filtered_sum spectrum _ (spectrum.length - ⌊lo /
      ((rate : ℚ) / (2 * (spectrum.length : ℚ)))⌋.toNat) _ le_rfl]
    apply Finset.sum_congr
    · apply Finset.filter_congr
      intro i _
      rw [Int.toNat_le]
    · intro i _
      rfl

/-- C7 (witness): the amended claim instantiated at the 2-sample input
`[0, 0]` (even `N = 2`) and the band query `[0, 22050]` Hz on a 2-bin
spectrum at 44100 Hz. -/
theorem c7_witness :
    performFFT [0, 0] = Except.ok (fftMagnitudes [0, 0]) ∧
    (fftMagnitudes [0, 0]).length = min 1024 (List.length [(0 : ℚ), 0]) / 2 ∧
    getFrequencyRange [(1 : ℝ), 2] 0 22050 44100 =
      bandEnergySpec [(1 : ℝ), 2] 0 22050 44100 := by
  have h := c7_spectral_analysis [0, 0] (by norm_num) [(1 : ℝ), 2] 0 22050 44100
    (by norm_num)
  exact ⟨h.1, h.2.1, h.2.2.2⟩

end AudioAnalysis
